import Mathlib

/-!
Shallow embedding of the core of the kizuna-sdk trigger-driven acquisition
engine, translated from the TypeScript source:

* `src/utils/rateLimiter.ts` — sliding-window `RateLimiter`
  (`acquire`, `tryAcquire`, `getWaitTime`);
* `src/utils/cache.ts` — TTL `Cache` (`set`, `get`, `has`);
* `src/utils/errors.ts` — `withRetry` and `DEFAULT_RETRY_OPTIONS`;
* `src/alerts/alert.service.ts` — `AlertService.checkAlerts`;
* `AutoBuyService` (`createPosition`, `checkListings`, `executePurchase`,
  `checkAllPositions`).

Times are embedded as `Int` milliseconds (JS `Date.now()` values), prices as
`ℚ` (JS numbers obtained from `parseFloat`/division; all prices used in the
theorems below are exactly representable, so the rational model agrees with
the IEEE semantics on every comparison performed). JS exceptions are embedded
as `Except`/`Option` values, and observable side effects (wallet calls,
callback invocations) are returned as explicit event logs.
-/

/-! ## RateLimiter (`src/utils/rateLimiter.ts`) -/

/-- Embeds `RateLimiterConfig` from `rateLimiter.ts`. -/
structure RLConfig where
  maxRequests : Nat
  timeWindowMs : Int
deriving DecidableEq, Repr

/-- The timestamp filter shared by `acquire`, `tryAcquire` and `getWaitTime`:
`timestamps.filter(ts => now - ts < this.config.timeWindowMs)`. -/
def validOf (cfg : RLConfig) (now : Int) (ts : List Int) : List Int :=
  ts.filter (fun t => now - t < cfg.timeWindowMs)

/-- The per-key request log of a `RateLimiter` (`this.requests`), as a total
map from keys to timestamp lists (`Map.get(key) || []`). -/
def RLState : Type := String → List Int

/-- The empty request log of a fresh `RateLimiter`. -/
def rlInit : RLState := fun _ => []

/-- Update one key's timestamp list (`this.requests.set(key, ...)`). -/
def rlSet (st : RLState) (k : String) (l : List Int) : RLState :=
  fun k' => if k' = k then l else st k'

/-- Embeds `RateLimiter.tryAcquire(key)`: filter the log to the live window; if the
live count has reached `maxRequests`, return `false` without touching the
stored log; otherwise push `now`, store the pruned list and return `true`. -/
def tryAcquire (cfg : RLConfig) (now : Int) (k : String) (st : RLState) :
    RLState × Bool :=
  let valid := validOf cfg now (st k)
  if valid.length ≥ cfg.maxRequests then (st, false)
  else (rlSet st k (valid ++ [now]), true)

/-- The condition under which a single `acquire` attempt does **not** sleep
and instead records an admission and returns.  In the source the attempt
sleeps exactly when `validTimestamps.length >= maxRequests` **and**
`waitTime > 0` with `waitTime = timeWindowMs - (now - validTimestamps[0])`.
Every element of `validTimestamps` satisfies `now - ts < timeWindowMs`, so
when the list is nonempty `waitTime > 0` always holds; when it is empty
(possible only with `maxRequests = 0`) `validTimestamps[0]` is `undefined`,
`waitTime` is `NaN`, the `NaN > 0` test is false and the code falls through
to the push.  Hence the attempt completes iff the live count is below
`maxRequests` or the live window is empty. -/
def acquireReturnsNow (cfg : RLConfig) (now : Int) (l : List Int) : Bool :=
  decide ((validOf cfg now l).length < cfg.maxRequests) ||
    (validOf cfg now l).isEmpty

/-- The state written by the completing attempt of `acquire` (the push of
`now` onto the pruned list followed by `this.requests.set`). -/
def acquireFinish (cfg : RLConfig) (now : Int) (k : String) (st : RLState) :
    RLState :=
  rlSet st k (validOf cfg now (st k) ++ [now])

/-- Embeds `RateLimiter.getWaitTime(key)`.  When the live count has reached
`maxRequests` and the live window is empty (only possible with
`maxRequests = 0`), the source computes `timeWindowMs - (now - undefined)`,
i.e. `NaN`; we embed that return value as `none`. -/
def getWaitTime (cfg : RLConfig) (now : Int) (k : String) (st : RLState) :
    Option Int :=
  let valid := validOf cfg now (st k)
  if valid.length ≥ cfg.maxRequests then
    match valid with
    | [] => none
    | t :: _ => some (cfg.timeWindowMs - (now - t))
  else some 0

/-- The JS test `getWaitTime(key) > 0` (false on `NaN`). -/
def waitTimePos (cfg : RLConfig) (now : Int) (k : String) (st : RLState) :
    Bool :=
  match getWaitTime cfg now k st with
  | none => false
  | some w => decide (0 < w)

/-- A completed client call on the limiter: a non-blocking `tryAcquire`, or
the return of a (possibly long-blocking) `acquire`. -/
inductive RLOp where
  | tryAcq (k : String)
  | acqDone (k : String)
deriving DecidableEq, Repr

/-- Effect of one completed call on the request log. -/
def rlStep (cfg : RLConfig) (st : RLState) (e : Int × RLOp) : RLState :=
  match e.2 with
  | .tryAcq k => (tryAcquire cfg e.1 k st).1
  | .acqDone k => acquireFinish cfg e.1 k st

/-- Run a trace of completed calls, oldest first. -/
def rlRun (cfg : RLConfig) (st : RLState) : List (Int × RLOp) → RLState
  | [] => st
  | e :: tr => rlRun cfg (rlStep cfg st e) tr

/-- A trace is well-formed when its completion times are nondecreasing from
`t0` and every `acquire` completes only in a state in which the source's
attempt actually records an admission and returns (`acquire` keeps sleeping
otherwise). -/
def rlTraceOK (cfg : RLConfig) : RLState → Int → List (Int × RLOp) → Bool
  | _, _, [] => true
  | st, t0, e :: tr =>
    decide (t0 ≤ e.1) &&
    (match e.2 with
     | .tryAcq _ => true
     | .acqDone k => acquireReturnsNow cfg e.1 (st k)) &&
    rlTraceOK cfg (rlStep cfg st e) e.1 tr

/-- The time of the last completed call of a trace (`t0` if empty). -/
def rlEndTime (t0 : Int) : List (Int × RLOp) → Int
  | [] => t0
  | e :: tr => rlEndTime e.1 tr

/-- Number of recorded admissions for a key that lie within the trailing
window at observation time `now`. -/
def countValid (cfg : RLConfig) (now : Int) (l : List Int) : Nat :=
  (validOf cfg now l).length

theorem length_filter_mono {α : Type} (l : List α) (p q : α → Bool)
    (h : ∀ a ∈ l, p a = true → q a = true) :
    (l.filter p).length ≤ (l.filter q).length := by
  induction l with
  | nil => simp
  | cons a l ih =>
    simp only [List.filter_cons]
    have ih' := ih (fun x hx hp => h x (List.mem_cons_of_mem a hx) hp)
    by_cases hp : p a = true
    · rw [hp, h a (List.mem_cons_self a l) hp]
      simpa using Nat.succ_le_succ ih'
    · simp only [Bool.not_eq_true] at hp
      rw [hp]
      by_cases hq : q a = true
      · rw [hq]
        simp only [List.length_cons]
        exact Nat.le_succ_of_le ih'
      · simp only [Bool.not_eq_true] at hq
        rw [hq]
        exact ih'

theorem countValid_antitone (cfg : RLConfig) (l : List Int) (t t' : Int)
    (_hb : ∀ x ∈ l, x ≤ t) (ht : t ≤ t') :
    countValid cfg t' l ≤ countValid cfg t l := by
  apply length_filter_mono
  intro a ha hp
  simp only [decide_eq_true_eq] at hp ⊢
  have : t - a ≤ t' - a := by omega
  omega

theorem mem_validOf {cfg : RLConfig} {now : Int} {ts : List Int} {x : Int}
    (h : x ∈ validOf cfg now ts) : x ∈ ts :=
  List.mem_of_mem_filter h

theorem validOf_sat {cfg : RLConfig} {now : Int} {ts : List Int} {x : Int}
    (h : x ∈ validOf cfg now ts) : now - x < cfg.timeWindowMs := by
  have := List.of_mem_filter h
  simpa using this

/-- Re-filtering the live window at the same instant is the identity. -/
theorem validOf_idem (cfg : RLConfig) (now : Int) (ts : List Int) :
    validOf cfg now (validOf cfg now ts) = validOf cfg now ts := by
  apply List.filter_eq_self.mpr
  intro a ha
  simp only [decide_eq_true_eq]
  exact validOf_sat ha

/-- The per-state invariant carried through a trace: every key's live count
at time `t` is within budget and every stored timestamp is at most `t`. -/
def RLInv (cfg : RLConfig) (t : Int) (st : RLState) : Prop :=
  ∀ k, countValid cfg t (st k) ≤ cfg.maxRequests ∧ ∀ x ∈ st k, x ≤ t

theorem countValid_push (cfg : RLConfig) (now : Int) (ts : List Int) :
    countValid cfg now (validOf cfg now ts ++ [now]) ≤
      (validOf cfg now ts).length + 1 := by
  unfold countValid validOf
  rw [List.filter_append]
  have h1 : (List.filter (fun t => decide (now - t < cfg.timeWindowMs))
      (validOf cfg now ts)).length = (validOf cfg now ts).length := by
    have := validOf_idem cfg now ts
    unfold validOf at this ⊢
    rw [this]
  unfold validOf at h1
  rw [List.length_append, h1]
  have h2 : (List.filter (fun t => decide (now - t < cfg.timeWindowMs))
      [now]).length ≤ 1 := by
    simpa using List.length_filter_le (fun t => decide (now - t < cfg.timeWindowMs)) [now]
  omega

theorem rlInv_step (cfg : RLConfig) (hmax : 1 ≤ cfg.maxRequests)
    (st : RLState) (t0 : Int) (e : Int × RLOp)
    (ht : t0 ≤ e.1)
    (hg : ∀ k, e.2 = .acqDone k → acquireReturnsNow cfg e.1 (st k) = true)
    (hinv : RLInv cfg t0 st) : RLInv cfg e.1 (rlStep cfg st e) := by
  obtain ⟨now, op⟩ := e
  have hold : ∀ k', countValid cfg now (st k') ≤ cfg.maxRequests ∧
      ∀ x ∈ st k', x ≤ now := by
    intro k'
    exact ⟨le_trans (countValid_antitone cfg _ t0 now (hinv k').2 ht) (hinv k').1,
      fun x hx => le_trans ((hinv k').2 x hx) ht⟩
  have hpush : ∀ k',
      ((validOf cfg now (st k')).length < cfg.maxRequests ∨
        validOf cfg now (st k') = []) →
      countValid cfg now (validOf cfg now (st k') ++ [now]) ≤ cfg.maxRequests ∧
      ∀ x ∈ validOf cfg now (st k') ++ [now], x ≤ now := by
    intro k' hcase
    constructor
    · have hb := countValid_push cfg now (st k')
      rcases hcase with h | h
      · omega
      · rw [h] at hb
        simp only [List.length_nil] at hb
        rw [h]
        omega
    · intro x hx
      rcases List.mem_append.mp hx with h | h
      · exact le_trans ((hinv k').2 x (mem_validOf h)) ht
      · simp only [List.mem_singleton] at h
        omega
  cases op with
  | tryAcq k' =>
    intro k
    simp only [rlStep, tryAcquire]
    by_cases hc : (validOf cfg now (st k')).length ≥ cfg.maxRequests
    · simp only [hc, if_pos, ge_iff_le]
      exact hold k
    · rw [if_neg hc]
      simp only [rlSet]
      by_cases hk : k = k'
      · rw [if_pos hk]
        exact hpush k' (Or.inl (Nat.lt_of_not_le hc))
      · rw [if_neg hk]
        exact hold k
  | acqDone k' =>
    intro k
    simp only [rlStep, acquireFinish, rlSet]
    have hguard := hg k' rfl
    simp only [acquireReturnsNow, Bool.or_eq_true, decide_eq_true_eq,
      List.isEmpty_iff] at hguard
    by_cases hk : k = k'
    · rw [if_pos hk]
      exact hpush k' hguard
    · rw [if_neg hk]
      exact hold k

theorem rlInv_run (cfg : RLConfig) (hmax : 1 ≤ cfg.maxRequests) :
    ∀ (tr : List (Int × RLOp)) (st : RLState) (t0 : Int),
      rlTraceOK cfg st t0 tr = true → RLInv cfg t0 st →
      RLInv cfg (rlEndTime t0 tr) (rlRun cfg st tr) := by
  intro tr
  induction tr with
  | nil => intro st t0 _ h; exact h
  | cons e tr ih =>
    intro st t0 hok hinv
    obtain ⟨now, op⟩ := e
    have hstep : RLInv cfg now (rlStep cfg st (now, op)) := by
      cases op with
      | tryAcq k' =>
        simp only [rlTraceOK, Bool.and_eq_true, decide_eq_true_eq] at hok
        exact rlInv_step cfg hmax st t0 (now, .tryAcq k') hok.1.1
          (fun k hk => by simp at hk) hinv
      | acqDone k' =>
        simp only [rlTraceOK, Bool.and_eq_true, decide_eq_true_eq] at hok
        refine rlInv_step cfg hmax st t0 (now, .acqDone k') hok.1.1 ?_ hinv
        intro k hk
        simp only [RLOp.acqDone.injEq] at hk
        rw [← hk]
        exact hok.1.2
    have hrest : rlTraceOK cfg (rlStep cfg st (now, op)) now tr = true := by
      cases op with
      | tryAcq k' =>
        simp only [rlTraceOK, Bool.and_eq_true] at hok
        exact hok.2
      | acqDone k' =>
        simp only [rlTraceOK, Bool.and_eq_true] at hok
        exact hok.2
    exact ih (rlStep cfg st (now, op)) now hrest hstep

/-- C1 (amended): for every configuration with `maxRequests ≥ 1`, after any
finite well-formed sequence of completed `acquire`/`tryAcquire` calls, the
number of recorded admission timestamps for any key that lie within the
trailing `timeWindowMs` never exceeds `maxRequests`, at any observation
instant at or after the last completed call.  (With `maxRequests = 0` the
claim fails, see the counterexample.) -/
theorem C1_rateLimiter_window_bound (cfg : RLConfig)
    (hmax : 1 ≤ cfg.maxRequests) (t0 : Int) (tr : List (Int × RLOp))
    (htr : rlTraceOK cfg rlInit t0 tr = true)
    (k : String) (T : Int) (hT : rlEndTime t0 tr ≤ T) :
    countValid cfg T (rlRun cfg rlInit tr k) ≤ cfg.maxRequests := by
  have hinv0 : RLInv cfg t0 rlInit := by
    intro k'
    constructor
    · simp [countValid, validOf, rlInit]
    · simp [rlInit]
  have h := rlInv_run cfg hmax tr rlInit t0 htr hinv0
  exact le_trans (countValid_antitone cfg _ _ T (h k).2 hT) (h k).1

/-- Witness for C1 at a concrete trace: two admissions under
`maxRequests = 2, timeWindowMs = 10`. -/
theorem C1_rateLimiter_window_bound_witness :
    countValid ⟨2, 10⟩ 3
      (rlRun ⟨2, 10⟩ rlInit [(0, .tryAcq "a"), (1, .acqDone "a"), (3, .tryAcq "a")] "a")
      ≤ (2 : Nat) :=
  C1_rateLimiter_window_bound ⟨2, 10⟩ (by decide) 0
    [(0, .tryAcq "a"), (1, .acqDone "a"), (3, .tryAcq "a")] (by decide)
    "a" 3 (by decide)

/-- Counterexample to C1 as stated: with `maxRequests = 0` an `acquire` on an
empty log hits the `undefined`/`NaN` wait-time path, falls through and records
an admission, so one timestamp lies in the trailing window while the budget is
`0`. -/
theorem C1_counterexample :
    rlTraceOK ⟨0, 1000⟩ rlInit 0 [(0, .acqDone "a")] = true ∧
    ¬ countValid ⟨0, 1000⟩ (rlEndTime 0 [(0, .acqDone "a")])
        (rlRun ⟨0, 1000⟩ rlInit [(0, .acqDone "a")] "a")
      ≤ (RLConfig.mk 0 1000).maxRequests := by
  constructor
  · decide
  · decide

/-- C7 (amended): for `maxRequests ≥ 1`, `tryAcquire` returns `false` exactly
when `getWaitTime` is positive (the states in which `acquire` would currently
wait), and when it returns `true` it records the admission exactly as the
completing `acquire` attempt does.  (With `maxRequests = 0` and an empty live
window both `tryAcquire` and the `NaN`-valued `getWaitTime > 0` test are
false, see the counterexample.) -/
theorem C7_tryAcquire_iff_wait (cfg : RLConfig) (hmax : 1 ≤ cfg.maxRequests)
    (now : Int) (k : String) (st : RLState) :
    ((tryAcquire cfg now k st).2 = false ↔ waitTimePos cfg now k st = true) ∧
    ((tryAcquire cfg now k st).2 = true →
      (tryAcquire cfg now k st).1 = acquireFinish cfg now k st) := by
  by_cases hc : (validOf cfg now (st k)).length ≥ cfg.maxRequests
  · constructor
    · constructor
      · intro _
        cases hv : validOf cfg now (st k) with
        | nil =>
          rw [hv] at hc
          simp at hc
          omega
        | cons t rest =>
          have hmem : t ∈ validOf cfg now (st k) := by
            rw [hv]
            exact List.mem_cons_self t rest
          have hlt := validOf_sat hmem
          simp only [waitTimePos, getWaitTime, hv]
          rw [hv] at hc
          simp only [if_pos hc]
          simp only [decide_eq_true_eq]
          omega
      · intro _
        simp [tryAcquire, if_pos hc]
    · intro habs
      simp [tryAcquire, if_pos hc] at habs
  · constructor
    · constructor
      · intro habs
        simp [tryAcquire, if_neg hc] at habs
      · intro habs
        simp only [waitTimePos, getWaitTime, if_neg hc] at habs
        simp at habs
    · intro _
      simp [tryAcquire, if_neg hc, acquireFinish]

/-- Witness for C7 at a concrete state: `maxRequests = 1`, empty log. -/
theorem C7_tryAcquire_iff_wait_witness :
    ((tryAcquire ⟨1, 10⟩ 0 "a" rlInit).2 = false ↔
      waitTimePos ⟨1, 10⟩ 0 "a" rlInit = true) ∧
    ((tryAcquire ⟨1, 10⟩ 0 "a" rlInit).2 = true →
      (tryAcquire ⟨1, 10⟩ 0 "a" rlInit).1 = acquireFinish ⟨1, 10⟩ 0 "a" rlInit) :=
  C7_tryAcquire_iff_wait ⟨1, 10⟩ (by decide) 0 "a" rlInit

/-- Counterexample to C7 as stated: with `maxRequests = 0` and an empty log,
`tryAcquire` returns `false` but `getWaitTime` evaluates to `NaN`, so the
`getWaitTime > 0` test is also false and the claimed equivalence fails. -/
theorem C7_counterexample :
    ¬ ((tryAcquire ⟨0, 1000⟩ 0 "a" rlInit).2 = false ↔
        waitTimePos ⟨0, 1000⟩ 0 "a" rlInit = true) := by
  decide

/-! ## Retry policy (`src/utils/errors.ts`) -/

/-- The shape of a thrown JS error as inspected by the default retry
predicate: `error?.response?.status` and `error?.code`, plus the message. -/
structure MJsError where
  responseStatus : Option Nat
  code : Option String
  message : String
deriving DecidableEq, Repr

/-- The `shouldRetry` predicate of `DEFAULT_RETRY_OPTIONS`: HTTP 429,
`ECONNREFUSED` and `ETIMEDOUT` are retryable, everything else is not. -/
def defaultShouldRetry (e : MJsError) : Bool :=
  decide (e.responseStatus = some 429) ||
  decide (e.code = some "ECONNREFUSED") ||
  decide (e.code = some "ETIMEDOUT")

/-- Embeds `RetryOptions` from `errors.ts` (after the merge with
`DEFAULT_RETRY_OPTIONS`, so `shouldRetry` is present). -/
structure MRetryOptions where
  maxRetries : Nat
  initialDelayMs : Nat
  maxDelayMs : Nat
  backoffMultiplier : Nat
  shouldRetry : MJsError → Bool

/-- The merged options used by `withRetry {}` (i.e. `DEFAULT_RETRY_OPTIONS`). -/
def defaultRetryOptions : MRetryOptions :=
  ⟨3, 1000, 10000, 2, defaultShouldRetry⟩

/-- The `for (let attempt = 0; attempt <= maxRetries; attempt++)` loop body of
`withRetry`, with `rem = maxRetries - attempt` remaining loop iterations after
the current one.  The operation is a function of the attempt index so that
success-after-failures schedules are expressible.  Returns the outcome, the
number of invocations of the operation, and the list of backoff sleeps
performed (in order). -/
def retryGo {α : Type} (sr : MJsError → Bool) (maxD mult : Nat)
    (op : Nat → Except MJsError α) :
    Nat → Nat → Nat → Except MJsError α × Nat × List Nat
  | attempt, rem, delay =>
    match op attempt with
    | .ok a => (.ok a, 1, [])
    | .error e =>
      match rem with
      | 0 => (.error e, 1, [])
      | rem' + 1 =>
        if sr e then
          let (r, calls, sleeps) :=
            retryGo sr maxD mult op (attempt + 1) rem' (min (delay * mult) maxD)
          (r, calls + 1, delay :: sleeps)
        else (.error e, 1, [])

/-- Embeds `withRetry(fn, options)` from `errors.ts`, over the merged options. -/
def withRetry {α : Type} (opts : MRetryOptions)
    (op : Nat → Except MJsError α) : Except MJsError α × Nat × List Nat :=
  retryGo opts.shouldRetry opts.maxDelayMs opts.backoffMultiplier op
    0 opts.maxRetries opts.initialDelayMs

/-- C5: with `maxRetries = 3` and an operation that always fails with an
error the default predicate classifies non-retryable, `withRetry` invokes the
operation exactly once, performs no backoff sleep, and propagates that very
error unchanged. -/
theorem C5_nonretryable_single_attempt {α : Type} (e : MJsError)
    (hnr : defaultShouldRetry e = false) :
    withRetry (α := α) defaultRetryOptions (fun _ => .error e) =
      (.error e, 1, []) := by
  simp [withRetry, defaultRetryOptions, retryGo, hnr]

/-- Witness for C5 at a concrete non-retryable error (HTTP 500). -/
theorem C5_nonretryable_single_attempt_witness :
    withRetry (α := Nat) defaultRetryOptions
        (fun _ => .error ⟨some 500, some "ESOMETHING", "boom"⟩) =
      (.error ⟨some 500, some "ESOMETHING", "boom"⟩, 1, []) :=
  C5_nonretryable_single_attempt ⟨some 500, some "ESOMETHING", "boom"⟩ (by decide)

/-! ## TTL cache (`src/utils/cache.ts`) -/

/-- Embeds `CacheEntry<T>` from `cache.ts`. -/
structure MCacheEntry (V : Type) where
  value : V
  timestamp : Int
  expiresAt : Int
deriving DecidableEq, Repr

/-- Lookup in a JS `Map` embedded as an association list. -/
def assocFind {V : Type} (k : String) : List (String × V) → Option V
  | [] => none
  | (k', v) :: rest => if k = k' then some v else assocFind k rest

/-- Embeds `Map.set`: replace the existing binding or append a new one. -/
def assocSet {V : Type} (k : String) (v : V) :
    List (String × V) → List (String × V)
  | [] => [(k, v)]
  | (k', v') :: rest =>
    if k = k' then (k, v) :: rest else (k', v') :: assocSet k v rest

/-- Embeds `Map.delete`: remove the binding for `k`. -/
def assocErase {V : Type} (k : String) : List (String × V) → List (String × V)
  | [] => []
  | (k', v') :: rest =>
    if k = k' then rest else (k', v') :: assocErase k rest

/-- The backing store of a `Cache<T>` (`this.store`). -/
def CacheSt (V : Type) : Type := List (String × MCacheEntry V)

/-- The JS expression `ttl ? ttl * 1000 : this.defaultTTL` (a `ttl` of `0` is
falsy and falls back to the default). `defaultTTL` is in milliseconds, the
`ttl` argument in seconds. -/
def jsTtlMs (defaultTTL : Int) : Option Int → Int
  | none => defaultTTL
  | some t => if t = 0 then defaultTTL else t * 1000

/-- Embeds `Cache.set(key, value, ttl?)`. -/
def cacheSet {V : Type} (defaultTTL : Int) (k : String) (v : V)
    (ttl : Option Int) (now : Int) (st : CacheSt V) : CacheSt V :=
  assocSet k ⟨v, now, now + jsTtlMs defaultTTL ttl⟩ st

/-- Embeds `Cache.get(key)`: absent entries and entries with `now > expiresAt` read
as `null`; an expired entry is deleted as a side effect of the read. -/
def cacheGet {V : Type} (k : String) (now : Int) (st : CacheSt V) :
    Option V × CacheSt V :=
  match assocFind k st with
  | none => (none, st)
  | some e => if now > e.expiresAt then (none, assocErase k st) else (some e.value, st)

/-- Embeds `Cache.has(key)`, with the same lazy-expiry side effect as `get`. -/
def cacheHas {V : Type} (k : String) (now : Int) (st : CacheSt V) :
    Bool × CacheSt V :=
  match assocFind k st with
  | none => (false, st)
  | some e => if now > e.expiresAt then (false, assocErase k st) else (true, st)

theorem assocFind_set_self {V : Type} (k : String) (v : V)
    (st : List (String × V)) : assocFind k (assocSet k v st) = some v := by
  induction st with
  | nil => simp [assocSet, assocFind]
  | cons p rest ih =>
    obtain ⟨k', v'⟩ := p
    by_cases hk : k = k'
    · simp [assocSet, hk, assocFind]
    · simp [assocSet, hk, assocFind, ih]

theorem assocFind_none_of_not_mem {V : Type} (k : String)
    (st : List (String × V)) (h : k ∉ st.map Prod.fst) :
    assocFind k st = none := by
  induction st with
  | nil => simp [assocFind]
  | cons p rest ih =>
    obtain ⟨k', v'⟩ := p
    simp only [List.map_cons, List.mem_cons] at h
    push_neg at h
    simp [assocFind, h.1, ih h.2]

theorem mem_keys_assocSet {V : Type} (k x : String) (v : V)
    (st : List (String × V)) (h : x ∈ (assocSet k v st).map Prod.fst) :
    x ∈ st.map Prod.fst ∨ x = k := by
  induction st with
  | nil =>
    simp [assocSet] at h
    exact Or.inr h
  | cons p rest ih =>
    obtain ⟨k', v'⟩ := p
    by_cases hk : k = k'
    · simp only [assocSet, if_pos hk, List.map_cons, List.mem_cons] at h
      rcases h with h | h
      · exact Or.inr h
      · exact Or.inl (by simp [h])
    · simp only [assocSet, if_neg hk, List.map_cons, List.mem_cons] at h
      rcases h with h | h
      · exact Or.inl (by simp [h])
      · rcases ih h with h' | h'
        · exact Or.inl (by simp [h'])
        · exact Or.inr h'

theorem nodup_keys_assocSet {V : Type} (k : String) (v : V)
    (st : List (String × V)) (h : (st.map Prod.fst).Nodup) :
    ((assocSet k v st).map Prod.fst).Nodup := by
  induction st with
  | nil => simp [assocSet]
  | cons p rest ih =>
    obtain ⟨k', v'⟩ := p
    simp only [List.map_cons, List.nodup_cons] at h
    by_cases hk : k = k'
    · simp only [assocSet, if_pos hk, List.map_cons, List.nodup_cons]
      exact ⟨hk ▸ h.1, h.2⟩
    · simp only [assocSet, if_neg hk, List.map_cons, List.nodup_cons]
      refine ⟨fun hmem => ?_, ih h.2⟩
      rcases mem_keys_assocSet k k' v rest hmem with h' | h'
      · exact h.1 h'
      · exact hk h'.symm

theorem assocFind_erase_self {V : Type} (k : String)
    (st : List (String × V)) (h : (st.map Prod.fst).Nodup) :
    assocFind k (assocErase k st) = none := by
  induction st with
  | nil => simp [assocErase, assocFind]
  | cons p rest ih =>
    obtain ⟨k', v'⟩ := p
    simp only [List.map_cons, List.nodup_cons] at h
    by_cases hk : k = k'
    · simp only [assocErase, if_pos hk]
      apply assocFind_none_of_not_mem
      rw [hk]
      exact h.1
    · simp [assocErase, hk, assocFind, ih h.2]

theorem assocFind_erase_other {V : Type} (k k' : String) (hk : k' ≠ k)
    (st : List (String × V)) :
    assocFind k' (assocErase k st) = assocFind k' st := by
  induction st with
  | nil => simp [assocErase]
  | cons p rest ih =>
    obtain ⟨k'', v''⟩ := p
    by_cases h1 : k = k''
    · rw [assocErase, if_pos h1, assocFind, if_neg (h1 ▸ hk)]
    · rw [assocErase, if_neg h1]
      by_cases h2 : k' = k''
      · rw [assocFind, if_pos h2, assocFind, if_pos h2]
      · rw [assocFind, if_neg h2, assocFind, if_neg h2, ih]

/-- C6: `set(k, v, ttl)` followed by `get(k)` at or before the stored expiry
returns `v`; once the clock exceeds the expiry, `get(k)` returns `null` and a
subsequent `has(k)` (on the store `get` left behind) returns `false`; in
general an entry is visible iff `now ≤ expiresAt`; expiry is lazy — a
non-expired read leaves the store untouched, and a read of `k` never disturbs
any other key's entry. -/
theorem C6_cache_ttl_semantics {V : Type} (dTTL : Int) (k : String) (v : V)
    (ttl : Option Int) (now₁ now₂ now₃ : Int) (st : CacheSt V)
    (hnd : (st.map Prod.fst).Nodup) :
    (now₂ ≤ now₁ + jsTtlMs dTTL ttl →
      (cacheGet k now₂ (cacheSet dTTL k v ttl now₁ st)).1 = some v) ∧
    (now₂ > now₁ + jsTtlMs dTTL ttl →
      (cacheGet k now₂ (cacheSet dTTL k v ttl now₁ st)).1 = none ∧
      (cacheHas k now₃ (cacheGet k now₂ (cacheSet dTTL k v ttl now₁ st)).2).1
        = false) ∧
    (∀ w, (cacheGet k now₂ st).1 = some w ↔
      ∃ e, assocFind k st = some e ∧ e.value = w ∧ now₂ ≤ e.expiresAt) ∧
    (∀ e, assocFind k st = some e → now₂ ≤ e.expiresAt →
      (cacheGet k now₂ st).2 = st) ∧
    (∀ k', k' ≠ k → assocFind k' (cacheGet k now₂ st).2 = assocFind k' st) := by
  have hset := assocFind_set_self k
    (⟨v, now₁, now₁ + jsTtlMs dTTL ttl⟩ : MCacheEntry V) st
  refine ⟨?_, ?_, ?_, ?_, ?_⟩
  · intro hle
    simp only [cacheGet, cacheSet, hset]
    rw [if_neg (by omega)]
  · intro hgt
    have hnd' := nodup_keys_assocSet k
      (⟨v, now₁, now₁ + jsTtlMs dTTL ttl⟩ : MCacheEntry V) st hnd
    simp only [cacheGet, cacheSet, hset]
    rw [if_pos (by omega)]
    refine ⟨rfl, ?_⟩
    simp only [cacheHas]
    rw [assocFind_erase_self k _ hnd']
  · intro w
    constructor
    · intro h
      cases he : assocFind k st with
      | none => simp [cacheGet, he] at h
      | some e =>
        by_cases hexp : now₂ > e.expiresAt
        · simp [cacheGet, he, if_pos hexp] at h
        · simp only [cacheGet, he, if_neg hexp, Option.some.injEq] at h
          exact ⟨e, rfl, h, by omega⟩
    · rintro ⟨e, he, hv, hexp⟩
      simp only [cacheGet, he]
      rw [if_neg (by omega)]
      simp [hv]
  · intro e he hexp
    simp only [cacheGet, he]
    rw [if_neg (by omega)]
  · intro k' hk'
    cases he : assocFind k st with
    | none => simp [cacheGet, he]
    | some e =>
      by_cases hexp : now₂ > e.expiresAt
      · simp only [cacheGet, he, if_pos hexp]
        exact assocFind_erase_other k k' hk' st
      · simp [cacheGet, he, if_neg hexp]

/-- Witness for C6 at a concrete run: default TTL 300 s, set at `t = 0`, read
at `t = 1` (hit), read at `t = 300001` (expired) and `has` at
`t = 300002`. -/
theorem C6_cache_ttl_semantics_witness :
    (cacheGet "k" 1 (cacheSet 300000 "k" (42 : Nat) none 0 [])).1 = some 42 ∧
    (cacheGet "k" 300001 (cacheSet 300000 "k" (42 : Nat) none 0 [])).1 = none ∧
    (cacheHas "k" 300002
      (cacheGet "k" 300001 (cacheSet 300000 "k" (42 : Nat) none 0 [])).2).1
      = false :=
  ⟨(C6_cache_ttl_semantics 300000 "k" 42 none 0 1 2 [] (by simp)).1 (by decide),
   ((C6_cache_ttl_semantics 300000 "k" 42 none 0 300001 300002 []
      (by simp)).2.1 (by decide)).1,
   ((C6_cache_ttl_semantics 300000 "k" 42 none 0 300001 300002 []
      (by simp)).2.1 (by decide)).2⟩

/-! ## Alert service (`src/alerts/alert.service.ts`) -/

/-- An alert condition (`'above' | 'below'`). -/
inductive ACond where
  | above
  | below
deriving DecidableEq, Repr

/-- Embeds `PriceAlert` from `types.ts`, with the target price embedded as the
rational the source obtains via `parseFloat`. -/
structure MPriceAlert where
  id : String
  collectionAddress : String
  targetPrice : ℚ
  condition : ACond
  active : Bool
  createdAt : Int
deriving DecidableEq, Repr

/-- A registered observer callback.  `throwErr = some m` embeds a callback
that throws an `Error` with message `m` when invoked; `none` a callback that
returns normally. -/
structure MCallback where
  cbId : String
  throwErr : Option String
deriving DecidableEq, Repr

/-- Embeds `callbacks.forEach(cb => cb(...))`: invoke the callbacks in registration
order, logging each invocation with `mkEv`; the first throw propagates
immediately and skips the rest. -/
def runCbList {E : Type} (mkEv : String → E) :
    List MCallback → List E × Option String
  | [] => ([], none)
  | cb :: rest =>
    match cb.throwErr with
    | some m => ([mkEv cb.cbId], some m)
    | none =>
      ((mkEv cb.cbId) :: (runCbList mkEv rest).1, (runCbList mkEv rest).2)

/-- The trigger test of `AlertService.checkAlerts`:
`(condition === 'above' && current >= target) ||
 (condition === 'below' && current <= target)`. -/
def alertShouldTrigger (a : MPriceAlert) (current : ℚ) : Bool :=
  (decide (a.condition = .above) && decide (a.targetPrice ≤ current)) ||
  (decide (a.condition = .below) && decide (current ≤ a.targetPrice))

deriving instance DecidableEq for Except

/-- An alert-callback invocation event: callback id, alert id, price. -/
abbrev AEvent : Type := String × String × ℚ

/-- Embeds `AlertService.checkAlerts(currentPrices)`.  The source iterates
`getActiveAlerts()` (the `active`-filtered alert list), skips alerts with no
(or falsy) current price, and for each triggering alert pushes it and invokes
its registered callbacks; there is no try/catch, so a throwing callback
propagates out of `checkAlerts` (the triggered list built so far is lost).
The invocation log is returned alongside because invocations already
performed remain observable.  `checkAlerts` never writes `this.alerts`, so
the service's alert map after a pass is the unchanged input list. -/
def checkAlerts (cbs : String → List MCallback) (prices : String → Option ℚ) :
    List MPriceAlert → Except String (List MPriceAlert) × List AEvent
  | [] => (.ok [], [])
  | a :: rest =>
    if a.active then
      match prices a.collectionAddress with
      | none => checkAlerts cbs prices rest
      | some current =>
        if alertShouldTrigger a current then
          match (runCbList (fun c => ((c, a.id, current) : AEvent)) (cbs a.id)).2 with
          | some m =>
            (.error m, (runCbList (fun c => ((c, a.id, current) : AEvent)) (cbs a.id)).1)
          | none =>
            ((checkAlerts cbs prices rest).1.map (fun l => a :: l),
             (runCbList (fun c => ((c, a.id, current) : AEvent)) (cbs a.id)).1 ++
               (checkAlerts cbs prices rest).2)
        else checkAlerts cbs prices rest
    else checkAlerts cbs prices rest

/-- The alert of C9: condition `above`, target `2.0`, active. -/
def c9alert : MPriceAlert := ⟨"a1", "c", 2, .above, true, 0⟩

/-- C9: the `above`/`below` boundaries are inclusive, and a triggering pass
invokes the alert's registered callbacks while leaving the alert untouched
(`checkAlerts` performs no write to the alert map), so the identical later
pass at the same price triggers it again. -/
theorem C9_alert_inclusive_and_retrigger :
    (∀ (a : MPriceAlert) (current : ℚ), a.condition = .above →
      a.targetPrice ≤ current → alertShouldTrigger a current = true) ∧
    (∀ (a : MPriceAlert) (current : ℚ), a.condition = .below →
      current ≤ a.targetPrice → alertShouldTrigger a current = true) ∧
    checkAlerts (fun _ => [⟨"cb1", none⟩]) (fun _ => some (21/10)) [c9alert] =
      (.ok [c9alert], [("cb1", "a1", (21/10 : ℚ))]) ∧
    c9alert.active = true := by
  refine ⟨?_, ?_, ?_, rfl⟩
  · intro a current hc hle
    simp [alertShouldTrigger, hc, hle]
  · intro a current hc hle
    simp [alertShouldTrigger, hc, hle]
  · norm_num [checkAlerts, runCbList, alertShouldTrigger, c9alert, Except.map]

/-- Witness for C9's boundary clauses at the tie `current = target = 2`. -/
theorem C9_alert_inclusive_and_retrigger_witness :
    alertShouldTrigger c9alert 2 = true :=
  C9_alert_inclusive_and_retrigger.1 c9alert 2 rfl (by decide)

/-! ## AutoBuyService -/

/-- Position status: `'active' | 'purchased' | 'stopped' | 'error'`. -/
inductive PStatus where
  | active
  | purchased
  | stopped
  | error
deriving DecidableEq, Repr

/-- Embeds `AutoBuyConfig`.  `maxPrice` is embedded as the rational the source
obtains via `parseFloat(position.config.maxPrice)`. -/
structure MAutoBuyConfig where
  collectionAddress : String
  maxPrice : ℚ
  paymentToken : Option String
  maxRetries : Option Nat
  stopOnError : Option Bool
deriving DecidableEq, Repr

/-- Embeds `AutoBuyPosition`.  `purchasedPrice` is the converted (unit) price the
source stores as a string. -/
structure MPosition where
  id : String
  config : MAutoBuyConfig
  status : PStatus
  lastCheck : Int
  attempts : Nat
  purchasedTokenId : Option String
  purchasedPrice : Option ℚ
  purchasedTxHash : Option String
  error : Option String
deriving DecidableEq, Repr

/-- The JS expression `x || d` on an optional number (`undefined` and `0` are
falsy). -/
def jsOrNat (o : Option Nat) (d : Nat) : Nat :=
  match o with
  | none => d
  | some n => if n = 0 then d else n

/-- JS truthiness of an optional boolean (`undefined` is falsy). -/
def truthyOpt (o : Option Bool) : Bool := o.getD false

/-- Embeds `AutoBuyService.createPosition(config)`: stores the config with
`maxRetries: config.maxRetries || 5` and `stopOnError: config.stopOnError ??
true`, status `'active'`, `attempts: 0`. -/
def createPosition (pid : String) (now : Int) (cfg : MAutoBuyConfig) :
    MPosition :=
  { id := pid
    config := { cfg with
                maxRetries := some (jsOrNat cfg.maxRetries 5)
                stopOnError := some (cfg.stopOnError.getD true) }
    status := .active
    lastCheck := now
    attempts := 0
    purchasedTokenId := none
    purchasedPrice := none
    purchasedTxHash := none
    error := none }

/-- A marketplace listing as read by `checkListings`: `base_price` as the raw
integer string, `payment_token?.decimals` as an optional number. -/
structure MListing where
  orderHash : String
  tokenId : String
  basePrice : Nat
  decimals : Option Nat
  maker : String
deriving DecidableEq, Repr

/-- Embeds `convertPrice(price, decimals)`: `parseInt(price) / 10 ** decimals`. -/
def convertPrice (price : Nat) (decimals : Nat) : ℚ :=
  (price : ℚ) / 10 ^ decimals

/-- Embeds `PurchaseTrigger` (we keep `price` as the raw `base_price` integer the
source copies into the trigger). -/
structure MTrigger where
  listingId : String
  tokenId : String
  price : Nat
  seller : String
deriving DecidableEq, Repr

/-- The listing scan of `checkListings`: first listing whose normalized price
is `<=` the configured `maxPrice` yields the trigger. -/
def firstTrigger (maxPrice : ℚ) : List MListing → Option MTrigger
  | [] => none
  | l :: rest =>
    if convertPrice l.basePrice (jsOrNat l.decimals 18) ≤ maxPrice then
      some ⟨l.orderHash, l.tokenId, l.basePrice, l.maker⟩
    else firstTrigger maxPrice rest

/-- Embeds `AutoBuyService.checkListings(position)`: the whole body is wrapped in
`try { ... } catch { return null }`, so a failing market-data fetch reads as
"no trigger this tick". -/
def checkListings (fetch : Except String (List MListing))
    (pos : MPosition) : Option MTrigger :=
  match fetch with
  | .error _ => none
  | .ok listings => firstTrigger pos.config.maxPrice listings

/-- Embeds `TransactionResult.status` values. -/
inductive TxStatus where
  | pending
  | confirmed
  | failed
deriving DecidableEq, Repr

/-- Embeds `TransactionResult` as returned by `wallet.transfer`. -/
structure MTxResult where
  hash : String
  status : TxStatus
deriving DecidableEq, Repr

/-- Observable events of an auto-buy tick: wallet transfer submissions and
callback invocations. -/
inductive TickEv where
  | transferEv (posId seller : String) (amount : ℚ)
  | purchaseCbEv (cbId posId : String)
  | errorCbEv (cbId posId : String)
deriving DecidableEq, Repr

/-- The `catch` block of `executePurchase`: increment `attempts`, record the
error message, move to the terminal status once `attempts >=
(config.maxRetries || 5)` (choosing `'stopped'`/`'error'` by the truthiness
of `stopOnError`), then run the error callbacks — these run outside any
try/catch, so a throwing error callback propagates (third component). -/
def purchaseCatch (ecbs : List MCallback) (pos : MPosition) (m : String) :
    MPosition × List TickEv × Option String :=
  let attempts := pos.attempts + 1
  let st :=
    if attempts ≥ jsOrNat pos.config.maxRetries 5 then
      if truthyOpt pos.config.stopOnError then PStatus.stopped else PStatus.error
    else pos.status
  ({ pos with attempts := attempts, error := some m, status := st },
   (runCbList (fun c => TickEv.errorCbEv c pos.id) ecbs).1,
   (runCbList (fun c => TickEv.errorCbEv c pos.id) ecbs).2)

/-- Embeds `AutoBuyService.executePurchase(position, trigger)`.  Components of the
result: the stored position, the event log, the returned boolean, and the
exception (if any) escaping the call.  On a `'confirmed'` transfer the
position is marked `'purchased'` with the fulfillment record and the purchase
callbacks run **inside** the `try`, so a throwing purchase callback falls
into the `catch`; a non-`'confirmed'` result raises `'Transaction failed'`
into the same `catch`. -/
def executePurchase (pcbs ecbs : List MCallback)
    (tres : Except String MTxResult) (pos : MPosition) (trg : MTrigger) :
    MPosition × List TickEv × Bool × Option String :=
  let amount := convertPrice trg.price 18
  let tEv := TickEv.transferEv pos.id trg.seller amount
  match tres with
  | .error m =>
    let c := purchaseCatch ecbs pos m
    (c.1, tEv :: c.2.1, false, c.2.2)
  | .ok r =>
    if r.status = .confirmed then
      let pos1 := { pos with
        status := PStatus.purchased
        purchasedTokenId := some trg.tokenId
        purchasedPrice := some amount
        purchasedTxHash := some r.hash }
      match (runCbList (fun c => TickEv.purchaseCbEv c pos.id) pcbs).2 with
      | none =>
        (pos1, tEv :: (runCbList (fun c => TickEv.purchaseCbEv c pos.id) pcbs).1,
         true, none)
      | some m =>
        let c := purchaseCatch ecbs pos1 m
        (c.1,
         tEv :: ((runCbList (fun c => TickEv.purchaseCbEv c pos.id) pcbs).1 ++ c.2.1),
         false, c.2.2)
    else
      let c := purchaseCatch ecbs pos "Transaction failed"
      (c.1, tEv :: c.2.1, false, c.2.2)

/-- The external world seen by one position during one tick: the market-data
fetch outcome and the wallet-transfer outcome (used only if a trigger
fires). -/
structure TickEnv where
  fetch : Except String (List MListing)
  transfer : Except String MTxResult

/-- Embeds `AutoBuyService.checkAllPositions()`: walk the position map in insertion
order; skip non-`'active'` positions untouched; stamp `lastCheck`; query
listings; on a trigger run `executePurchase`.  The loop body has no
try/catch, so an exception escaping `executePurchase` (a throwing error
callback) aborts the remaining positions (third component of the result). -/
def checkAllPositions (pcbs ecbs : List MCallback) (env : String → TickEnv)
    (now : Int) :
    List (String × MPosition) →
      List (String × MPosition) × List TickEv × Option String
  | [] => ([], [], none)
  | (pid, pos) :: rest =>
    if pos.status ≠ PStatus.active then
      let r := checkAllPositions pcbs ecbs env now rest
      ((pid, pos) :: r.1, r.2.1, r.2.2)
    else
      let pos0 := { pos with lastCheck := now }
      match checkListings (env pid).fetch pos0 with
      | none =>
        let r := checkAllPositions pcbs ecbs env now rest
        ((pid, pos0) :: r.1, r.2.1, r.2.2)
      | some trg =>
        let e := executePurchase pcbs ecbs (env pid).transfer pos0 trg
        match e.2.2.2 with
        | some m => ((pid, e.1) :: rest, e.2.1, some m)
        | none =>
          let r := checkAllPositions pcbs ecbs env now rest
          ((pid, e.1) :: r.1, e.2.1 ++ r.2.1, r.2.2)

/-- A tick leaves a list of positions none of which is `'active'` entirely
alone: every entry is returned unchanged, no event happens, nothing is
thrown. -/
theorem checkAllPositions_skip (pcbs ecbs : List MCallback)
    (env : String → TickEnv) (now : Int) :
    ∀ ps : List (String × MPosition),
      (∀ p ∈ ps, (Prod.snd p).status ≠ PStatus.active) →
      checkAllPositions pcbs ecbs env now ps = (ps, [], none) := by
  intro ps
  induction ps with
  | nil => intro _; rfl
  | cons p rest ih =>
    intro h
    obtain ⟨pid, pos⟩ := p
    have hp : pos.status ≠ PStatus.active := h (pid, pos) (List.mem_cons_self _ _)
    have hr := ih (fun q hq => h q (List.mem_cons_of_mem _ hq))
    simp only [checkAllPositions, if_pos hp, hr]

/-- The C2 scenario: `maxRetries = 2`, `stopOnError = true`, a listing that
always triggers, and a wallet transfer that always throws. -/
def c2pos : MPosition := createPosition "p1" 0 ⟨"coll", 1, none, some 2, some true⟩

/-- Per-tick environment of C2: triggering listing, failing transfer. -/
def c2env : String → TickEnv :=
  fun _ => ⟨.ok [⟨"oh", "tok", 500000000000000000, some 18, "seller"⟩],
            .error "transfer failed"⟩

/-- C2's position after its first failed execution attempt. -/
def c2posAfter1 : MPosition :=
  { c2pos with lastCheck := 1, attempts := 1, error := some "transfer failed" }

/-- C2's position after its second failed execution attempt. -/
def c2posAfter2 : MPosition :=
  { c2pos with lastCheck := 2, attempts := 2, status := PStatus.stopped,
               error := some "transfer failed" }

/-- C2: an always-failing position with `maxRetries = 2, stopOnError = true`
is still `'active'` after one failed attempt, reaches the terminal
`'stopped'` state after exactly its second failed attempt, and from then on
every tick skips it (as it skips any non-`'active'` position) without
mutating any field, producing no events. -/
theorem C2_stop_after_two_failures :
    (checkAllPositions [] [] c2env 1 [("p1", c2pos)]).1 = [("p1", c2posAfter1)] ∧
    c2posAfter1.status = PStatus.active ∧ c2posAfter1.attempts = 1 ∧
    (checkAllPositions [] [] c2env 2 [("p1", c2posAfter1)]).1 = [("p1", c2posAfter2)] ∧
    c2posAfter2.status = PStatus.stopped ∧ c2posAfter2.attempts = 2 ∧
    checkAllPositions [] [] c2env 3 [("p1", c2posAfter2)] =
      ([("p1", c2posAfter2)], [], none) ∧
    (∀ (pcbs ecbs : List MCallback) (env : String → TickEnv) (now : Int)
       (ps : List (String × MPosition)),
      (∀ p ∈ ps, (Prod.snd p).status ≠ PStatus.active) →
      checkAllPositions pcbs ecbs env now ps = (ps, [], none)) := by
  refine ⟨?_, rfl, rfl, ?_, rfl, rfl, ?_, checkAllPositions_skip⟩
  · norm_num [checkAllPositions, checkListings, firstTrigger, executePurchase,
      purchaseCatch, runCbList, convertPrice, jsOrNat, truthyOpt, c2env, c2pos,
      c2posAfter1, createPosition]
  · norm_num [checkAllPositions, checkListings, firstTrigger, executePurchase,
      purchaseCatch, runCbList, convertPrice, jsOrNat, truthyOpt, c2env, c2pos,
      c2posAfter1, c2posAfter2, createPosition]
  · exact checkAllPositions_skip [] [] c2env 3 _ (by intro p hp; simp at hp; rw [hp]; decide)

/-- Witness for C2's universally quantified skip clause at a concrete
stopped position. -/
theorem C2_stop_after_two_failures_witness :
    checkAllPositions [] [] c2env 3 [("p1", c2posAfter2)] =
      ([("p1", c2posAfter2)], [], none) :=
  C2_stop_after_two_failures.2.2.2.2.2.2.2 [] [] c2env 3 [("p1", c2posAfter2)]
    (by intro p hp; simp at hp; rw [hp]; decide)

/-- C8: a market-data fetch failure is "no trigger this tick": the active
position only gets its `lastCheck` stamped — `attempts`, `status` and the
recorded error are untouched, no wallet call or callback happens, and
nothing propagates out of the tick. -/
theorem C8_fetch_failure_is_no_trigger (pcbs ecbs : List MCallback)
    (env : String → TickEnv) (now : Int) (pid m : String) (pos : MPosition)
    (hact : pos.status = PStatus.active) (hf : (env pid).fetch = .error m) :
    checkAllPositions pcbs ecbs env now [(pid, pos)] =
      ([(pid, { pos with lastCheck := now })], [], none) ∧
    ({ pos with lastCheck := now } : MPosition).attempts = pos.attempts ∧
    ({ pos with lastCheck := now } : MPosition).status = pos.status ∧
    ({ pos with lastCheck := now } : MPosition).error = pos.error := by
  refine ⟨?_, rfl, rfl, rfl⟩
  have hna : ¬ pos.status ≠ PStatus.active := by simp [hact]
  simp only [checkAllPositions, if_neg hna, checkListings, hf]

/-- Witness for C8 at a concrete freshly created position. -/
theorem C8_fetch_failure_is_no_trigger_witness :
    checkAllPositions [] [] (fun _ => ⟨.error "network", .ok ⟨"h", .confirmed⟩⟩)
        9 [("p1", createPosition "p1" 0 ⟨"c", 1, none, none, none⟩)] =
      ([("p1", { createPosition "p1" 0 ⟨"c", 1, none, none, none⟩ with
                 lastCheck := 9 })], [], none) :=
  (C8_fetch_failure_is_no_trigger [] []
    (fun _ => ⟨.error "network", .ok ⟨"h", .confirmed⟩⟩) 9 "p1" "network"
    (createPosition "p1" 0 ⟨"c", 1, none, none, none⟩) rfl rfl).1


/-- The C4 environment: a single listing priced at exactly `0.3` unit
(`base_price = 3 * 10^17`, 18 decimals) and a wallet transfer that confirms
with hash `hash`. -/
def c4env (tokenId hash : String) : String → TickEnv :=
  fun _ => ⟨.ok [⟨"oh", tokenId, 300000000000000000, some 18, "s"⟩],
            .ok ⟨hash, .confirmed⟩⟩

/-- C4: for an active position with `maxPrice = 0.3`, a listing whose
normalized price ties the threshold (compared with `<=`) triggers exactly one
execution attempt in the tick, and a `'confirmed'` transfer moves the
position to `'purchased'` with the fulfillment record (token id, converted
price, transaction hash) set. -/
theorem C4_tie_price_triggers_purchase (pid tokenId hash : String)
    (now : Int) (pos : MPosition) (hact : pos.status = PStatus.active)
    (hmax : pos.config.maxPrice = 3/10) :
    checkAllPositions [] [] (c4env tokenId hash) now [(pid, pos)] =
      ([(pid, { pos with
                lastCheck := now
                status := PStatus.purchased
                purchasedTokenId := some tokenId
                purchasedPrice := some (3/10)
                purchasedTxHash := some hash })],
       [TickEv.transferEv pos.id "s" (3/10)], none) := by
  have hna : ¬ pos.status ≠ PStatus.active := by simp [hact]
  have hconv : convertPrice 300000000000000000 (jsOrNat (some 18) 18) = 3/10 := by
    norm_num [convertPrice, jsOrNat]
  have hle : convertPrice 300000000000000000 (jsOrNat (some 18) 18) ≤
      pos.config.maxPrice := by
    rw [hconv, hmax]
  simp only [checkAllPositions, if_neg hna, c4env, checkListings, firstTrigger,
    if_pos hle, executePurchase, runCbList, hconv]
  rw [if_pos (show (3 : ℚ)/10 ≤ pos.config.maxPrice by rw [hmax])]
  norm_num [convertPrice]

/-- Witness for C4 at a concrete freshly created position with
`maxPrice = 0.3`. -/
theorem C4_tie_price_triggers_purchase_witness :
    checkAllPositions [] [] (c4env "tok" "0xabc") 4
        [("p1", createPosition "p1" 0 ⟨"c", 3/10, none, none, none⟩)] =
      ([("p1", { createPosition "p1" 0 ⟨"c", 3/10, none, none, none⟩ with
                 lastCheck := 4
                 status := PStatus.purchased
                 purchasedTokenId := some "tok"
                 purchasedPrice := some (3/10)
                 purchasedTxHash := some "0xabc" })],
       [TickEv.transferEv "p1" "s" (3/10)], none) :=
  C4_tie_price_triggers_purchase "p1" "tok" "0xabc" 4
    (createPosition "p1" 0 ⟨"c", 3/10, none, none, none⟩) rfl rfl

/-- Shape of one failed execution attempt (throwing transfer, no callbacks):
`attempts` is incremented, the message recorded, and the status moves to the
`stopOnError`-selected terminal state exactly when the new attempt count
reaches `config.maxRetries || 5`. -/
theorem executePurchase_fail_shape (pos : MPosition) (trg : MTrigger)
    (m : String) :
    executePurchase [] [] (.error m) pos trg =
      ({ pos with
         attempts := pos.attempts + 1
         error := some m
         status :=
           if pos.attempts + 1 ≥ jsOrNat pos.config.maxRetries 5 then
             (if truthyOpt pos.config.stopOnError then PStatus.stopped
              else PStatus.error)
           else pos.status },
       [TickEv.transferEv pos.id trg.seller (convertPrice trg.price 18)],
       false, none) := by
  simp [executePurchase, purchaseCatch, runCbList]

/-- Embeds `n` successive failed execution attempts on a position (always-throwing
transfer, no registered callbacks). -/
def failPurchaseIter (trg : MTrigger) : Nat → MPosition → MPosition
  | 0, p => p
  | n + 1, p =>
    (executePurchase [] [] (.error "fail") (failPurchaseIter trg n p) trg).1

/-- Up to the fourth failure, a fresh position whose stored `maxRetries` is
`5` stays `'active'`, counting its attempts, with its config untouched. -/
theorem failPurchaseIter_progress (trg : MTrigger) (p : MPosition)
    (hmr : p.config.maxRetries = some 5) (hact : p.status = PStatus.active)
    (h0 : p.attempts = 0) :
    ∀ k, k ≤ 4 →
      (failPurchaseIter trg k p).status = PStatus.active ∧
      (failPurchaseIter trg k p).attempts = k ∧
      (failPurchaseIter trg k p).config = p.config := by
  intro k
  induction k with
  | zero => intro _; exact ⟨hact, h0, rfl⟩
  | succ n ih =>
    intro hle
    have hn := ih (by omega)
    have hmr' : jsOrNat (failPurchaseIter trg n p).config.maxRetries 5 = 5 := by
      rw [hn.2.2, hmr]
      rfl
    rw [show failPurchaseIter trg (n + 1) p =
        (executePurchase [] [] (.error "fail") (failPurchaseIter trg n p) trg).1
      from rfl]
    rw [executePurchase_fail_shape]
    refine ⟨?_, ?_, ?_⟩
    · simp only [hmr', hn.2.1, hn.1]
      rw [if_neg (by omega)]
    · simp only [hn.2.1]
    · exact hn.2.2

/-- C10: `createPosition` with `maxRetries = 0` stores the falsy-coalesced
default `5`, so the position is not immediately terminal — it stays
`'active'` through four failed execution attempts and reaches the
error-exhaustion terminal state (per `stopOnError`) only on the fifth. -/
theorem C10_maxRetries_zero_defaults_to_five (pid : String) (now : Int)
    (cfg : MAutoBuyConfig) (h0 : cfg.maxRetries = some 0) (trg : MTrigger) :
    (createPosition pid now cfg).config.maxRetries = some 5 ∧
    (∀ k, k ≤ 4 →
      (failPurchaseIter trg k (createPosition pid now cfg)).status =
        PStatus.active ∧
      (failPurchaseIter trg k (createPosition pid now cfg)).attempts = k) ∧
    (failPurchaseIter trg 5 (createPosition pid now cfg)).status =
      (if cfg.stopOnError.getD true then PStatus.stopped else PStatus.error) ∧
    (failPurchaseIter trg 5 (createPosition pid now cfg)).attempts = 5 := by
  have hmr : (createPosition pid now cfg).config.maxRetries = some 5 := by
    simp [createPosition, jsOrNat, h0]
  have hprog := failPurchaseIter_progress trg (createPosition pid now cfg)
    hmr rfl rfl
  refine ⟨hmr, fun k hk => ⟨(hprog k hk).1, (hprog k hk).2.1⟩, ?_, ?_⟩
  · have h4 := hprog 4 (by omega)
    have hmr' :
        jsOrNat (failPurchaseIter trg 4 (createPosition pid now cfg)).config.maxRetries 5
          = 5 := by
      rw [h4.2.2, hmr]
      rfl
    have hso :
        (failPurchaseIter trg 4 (createPosition pid now cfg)).config.stopOnError
          = some (cfg.stopOnError.getD true) := by
      rw [h4.2.2]
      simp [createPosition]
    rw [show failPurchaseIter trg 5 (createPosition pid now cfg) =
        (executePurchase [] [] (.error "fail")
          (failPurchaseIter trg 4 (createPosition pid now cfg)) trg).1
      from rfl]
    rw [executePurchase_fail_shape]
    simp only [hmr', h4.2.1, hso]
    rw [if_pos (by omega)]
    rfl
  · have h4 := hprog 4 (by omega)
    rw [show failPurchaseIter trg 5 (createPosition pid now cfg) =
        (executePurchase [] [] (.error "fail")
          (failPurchaseIter trg 4 (createPosition pid now cfg)) trg).1
      from rfl]
    rw [executePurchase_fail_shape]
    simp only [h4.2.1]

/-- Witness for C10 at a concrete config with `maxRetries = 0`. -/
theorem C10_maxRetries_zero_defaults_to_five_witness :
    (createPosition "p" 0 ⟨"c", 1, none, some 0, none⟩).config.maxRetries
      = some 5 ∧
    (failPurchaseIter ⟨"l", "t", 0, "s"⟩ 5
      (createPosition "p" 0 ⟨"c", 1, none, some 0, none⟩)).status
      = PStatus.stopped :=
  ⟨(C10_maxRetries_zero_defaults_to_five "p" 0 ⟨"c", 1, none, some 0, none⟩
      rfl ⟨"l", "t", 0, "s"⟩).1,
   by
    have h := (C10_maxRetries_zero_defaults_to_five "p" 0
      ⟨"c", 1, none, some 0, none⟩ rfl ⟨"l", "t", 0, "s"⟩).2.2.1
    simpa using h⟩

/-- A `forEach` over callbacks none of which throws completes normally. -/
theorem runCbList_no_throw {E : Type} (mkEv : String → E)
    (cbs : List MCallback) (h : ∀ cb ∈ cbs, cb.throwErr = none) :
    (runCbList mkEv cbs).2 = none := by
  induction cbs with
  | nil => rfl
  | cons cb rest ih =>
    have hcb := h cb (List.mem_cons_self _ _)
    simp only [runCbList, hcb]
    exact ih (fun c hc => h c (List.mem_cons_of_mem _ hc))

/-- When no error callback throws, `executePurchase` never lets an exception
escape — in particular a throwing purchase callback is swallowed by the
`catch` — and it never touches `lastCheck`. -/
theorem executePurchase_no_ecb_throw (pcbs ecbs : List MCallback)
    (tres : Except String MTxResult) (pos : MPosition) (trg : MTrigger)
    (h : ∀ cb ∈ ecbs, cb.throwErr = none) :
    (executePurchase pcbs ecbs tres pos trg).2.2.2 = none ∧
    (executePurchase pcbs ecbs tres pos trg).1.lastCheck = pos.lastCheck := by
  have hrun := runCbList_no_throw (fun c => TickEv.errorCbEv c pos.id) ecbs h
  cases tres with
  | error m => simp [executePurchase, purchaseCatch, hrun]
  | ok r =>
    by_cases hc : r.status = TxStatus.confirmed
    · cases hpc : (runCbList (fun c => TickEv.purchaseCbEv c pos.id) pcbs).2 with
      | none => simp [executePurchase, hc, hpc]
      | some m => simp [executePurchase, hc, hpc, purchaseCatch, hrun]
    · simp [executePurchase, hc, purchaseCatch, hrun]

/-- C3 (amended, auto-buy half): as long as no **error** callback throws, an
auto-buy tick never propagates an exception — a throwing **purchase**
callback is caught inside `executePurchase` — and every position of the tick
is still processed: the output pairs up with the input so that every active
position got its `lastCheck` stamped and every non-active position is
returned untouched.  (The alert half of the original claim is false: see the
counterexample, where a throwing alert callback aborts `checkAlerts`.) -/
theorem C3_amended_tick_isolation (pcbs ecbs : List MCallback)
    (env : String → TickEnv) (now : Int) (ps : List (String × MPosition))
    (h : ∀ cb ∈ ecbs, cb.throwErr = none) :
    (checkAllPositions pcbs ecbs env now ps).2.2 = none ∧
    List.Forall₂
      (fun a b : String × MPosition =>
        a.1 = b.1 ∧ (a.2.status = PStatus.active → b.2.lastCheck = now) ∧
        (a.2.status ≠ PStatus.active → b = a))
      ps (checkAllPositions pcbs ecbs env now ps).1 := by
  induction ps with
  | nil => exact ⟨rfl, List.Forall₂.nil⟩
  | cons p rest ih =>
    obtain ⟨pid, pos⟩ := p
    by_cases hact : pos.status = PStatus.active
    · have hna : ¬ pos.status ≠ PStatus.active := by simp [hact]
      cases htrg :
          checkListings (env pid).fetch { pos with lastCheck := now } with
      | none =>
        simp only [checkAllPositions, if_neg hna, htrg]
        exact ⟨ih.1,
          List.Forall₂.cons ⟨rfl, fun _ => rfl, fun hne => absurd hact hne⟩ ih.2⟩
      | some trg =>
        have he := executePurchase_no_ecb_throw pcbs ecbs (env pid).transfer
          { pos with lastCheck := now } trg h
        simp only [checkAllPositions, if_neg hna, htrg, he.1]
        refine ⟨ih.1,
          List.Forall₂.cons ⟨rfl, fun _ => ?_, fun hne => absurd hact hne⟩ ih.2⟩
        rw [he.2]
    · simp only [checkAllPositions, if_pos hact]
      exact ⟨ih.1,
        List.Forall₂.cons ⟨rfl, fun ha => absurd ha hact, fun _ => rfl⟩ ih.2⟩

/-- Witness for C3's amended theorem: a throwing purchase callback, no error
callbacks, two active positions — the tick throws nothing and both positions
are processed. -/
theorem C3_amended_tick_isolation_witness :
    (checkAllPositions [⟨"pcb", some "callback boom"⟩] []
      (fun _ => ⟨.ok [⟨"oh", "t", 0, some 18, "s"⟩], .ok ⟨"h", .confirmed⟩⟩) 7
      [("p1", createPosition "p1" 0 ⟨"c", 1, none, none, none⟩),
       ("p2", createPosition "p2" 0 ⟨"c", 1, none, none, none⟩)]).2.2 = none ∧
    List.Forall₂
      (fun a b : String × MPosition =>
        a.1 = b.1 ∧ (a.2.status = PStatus.active → b.2.lastCheck = 7) ∧
        (a.2.status ≠ PStatus.active → b = a))
      [("p1", createPosition "p1" 0 ⟨"c", 1, none, none, none⟩),
       ("p2", createPosition "p2" 0 ⟨"c", 1, none, none, none⟩)]
      (checkAllPositions [⟨"pcb", some "callback boom"⟩] []
        (fun _ => ⟨.ok [⟨"oh", "t", 0, some 18, "s"⟩], .ok ⟨"h", .confirmed⟩⟩) 7
        [("p1", createPosition "p1" 0 ⟨"c", 1, none, none, none⟩),
         ("p2", createPosition "p2" 0 ⟨"c", 1, none, none, none⟩)]).1 :=
  C3_amended_tick_isolation [⟨"pcb", some "callback boom"⟩] []
    (fun _ => ⟨.ok [⟨"oh", "t", 0, some 18, "s"⟩], .ok ⟨"h", .confirmed⟩⟩) 7
    [("p1", createPosition "p1" 0 ⟨"c", 1, none, none, none⟩),
     ("p2", createPosition "p2" 0 ⟨"c", 1, none, none, none⟩)]
    (by intro cb hc; cases hc)

/-- The first alert of the C3 counterexample, with a throwing callback. -/
def c3a1 : MPriceAlert := ⟨"a1", "c1", 1, .above, true, 0⟩

/-- The second alert of the C3 counterexample, with a well-behaved
callback. -/
def c3a2 : MPriceAlert := ⟨"a2", "c2", 1, .above, true, 0⟩

/-- Callback registry of the C3 counterexample. -/
def c3cbs : String → List MCallback :=
  fun aid =>
    if aid = "a1" then [⟨"cbBoom", some "boom"⟩]
    else if aid = "a2" then [⟨"cb2", none⟩]
    else []

/-- Counterexample to C3 as stated: both alerts trigger at price `2`, the
first alert's callback throws, and `checkAlerts` — which has no try/catch —
propagates the exception, so the second active alert is never evaluated and
its callback `cb2` is never invoked. -/
theorem C3_counterexample :
    (checkAlerts c3cbs (fun _ => some 2) [c3a1, c3a2]).1 = .error "boom" ∧
    (checkAlerts c3cbs (fun _ => some 2) [c3a1, c3a2]).2 =
      [("cbBoom", "a1", (2 : ℚ))] := by
  constructor <;>
    norm_num [checkAlerts, c3a1, c3a2, c3cbs, runCbList, alertShouldTrigger]
